import Mathlib

/-!
Shallow embedding of the API protection and delivery subsystem of
`datadog-ux-utils`: the sliding-window rate guard (`src/api/rateGuard.ts`),
the circuit breaker (`src/api/circuitBreaker.ts`), request de-duplication
(`dedupe.ts`), the retry executor (`retry.ts`), the in-memory offline
telemetry queue (`offlineQueue.ts`) and the persistent offline queue
(`src/telemetry/offlineQueue.persistent.ts`), together with theorems that
check the specification's claims against these definitions.

Machine integers of the source are JavaScript numbers used as epoch
timestamps, counters and sizes; every value that occurs is a small
non-negative integer, so they are modelled as `Nat` (the only subtraction
sites, `now - windowMs` and `now - lastReportAt`, compare against
non-negative quantities in exactly the way truncated subtraction does).
Asynchrony is modelled by splitting each wrapped call into its synchronous
phases and, where claims require it, letting traces interleave those phases.
-/

namespace RateGuard

/-- Overflow strategy of the rate guard (`GuardOverflowStrategy` in
`rateGuard.ts`). -/
inductive Strategy where
  | block
  | queue
  | drop
deriving DecidableEq, Repr

/-- Resolved configuration of `ApiRateGuard` (`this.cfg` after the
constructor ran; the constructor replaces a `blockDurationMs` of `0` by
`windowMs`, which `mkCfg` below mirrors). -/
structure Cfg where
  windowMs : Nat
  maxRequests : Nat
  blockDurationMs : Nat
  reportDebounceMs : Nat
  countOnFailure : Bool
  overflowStrategy : Strategy
deriving DecidableEq, Repr

/-- The `ApiRateGuard` constructor's resolution of the optional fields
(`blockDurationMs || config.windowMs`, defaults `5000`, `true`, `block`). -/
def mkCfg (windowMs maxRequests : Nat) (blockDurationMs : Option Nat)
    (reportDebounceMs : Option Nat) (countOnFailure : Option Bool)
    (overflowStrategy : Option Strategy) : Cfg :=
  { windowMs := windowMs
    maxRequests := maxRequests
    blockDurationMs :=
      if blockDurationMs.getD 0 = 0 then windowMs else blockDurationMs.getD 0
    reportDebounceMs := reportDebounceMs.getD 5000
    countOnFailure := countOnFailure.getD true
    overflowStrategy := overflowStrategy.getD .block }

/-- Per-key `Bucket` of `ApiRateGuard`.  The `waiters` array only exists for
the `queue` strategy, whose suspensions are modelled as an explicit outcome
below, so it is not carried here. -/
structure Bucket where
  hits : List Nat
  blockedUntil : Nat
  lastReportAt : Nat
deriving DecidableEq, Repr

/-- A fresh bucket, as created by `ApiRateGuard.getBucket`. -/
def mkBucket : Bucket := { hits := [], blockedUntil := 0, lastReportAt := 0 }

/-- `ApiRateGuard.prune`: shift timestamps older than `now - windowMs` off
the front of `hits`. -/
def prune (cfg : Cfg) (now : Nat) (b : Bucket) : Bucket :=
  { b with hits := b.hits.dropWhile (fun x => decide (x < now - cfg.windowMs)) }

/-- The state effect of `ApiRateGuard.maybeReport`: the debounced update of
`lastReportAt`.  The sampled telemetry emission itself carries no guard
state. -/
def maybeReport (cfg : Cfg) (now : Nat) (b : Bucket) : Bucket :=
  if now - b.lastReportAt < cfg.reportDebounceMs then b
  else { b with lastReportAt := now }

/-- How `beforeRequest` finishes: its promise resolves (so the guarded call
goes on to invoke the wrapped operation), it throws
`ApiRunawayBlockedError`, or — `queue` strategy only — the caller is
suspended until the block window ends (not modelled further; no claim
exercises the `queue` strategy). -/
inductive BeforeOutcome where
  | resolved
  | thrown
  | suspended (until_ : Nat)
deriving DecidableEq, Repr

/-- `ApiRateGuard.beforeRequest`.  Note the two `drop` branches: the source
does `return Promise.resolve(undefined as never)`, which resolves the
`beforeRequest` promise normally, so the awaiting `guard`/`guardFetch`
continues and invokes the operation. -/
def beforeRequest (cfg : Cfg) (guardEnabled : Bool) (b : Bucket) (now : Nat) :
    Bucket × BeforeOutcome :=
  if !guardEnabled then (b, .resolved)
  else
    let b := prune cfg now b
    if now < b.blockedUntil then
      match cfg.overflowStrategy with
      | .queue => (b, .suspended b.blockedUntil)
      | .drop => (maybeReport cfg now b, .resolved)
      | .block => (maybeReport cfg now b, .thrown)
    else
      let b := prune cfg now { b with hits := b.hits ++ [now] }
      if cfg.maxRequests < b.hits.length then
        let b := maybeReport cfg now { b with blockedUntil := now + cfg.blockDurationMs }
        match cfg.overflowStrategy with
        | .queue => ({ b with hits := b.hits.dropLast }, .suspended b.blockedUntil)
        | .drop => ({ b with hits := b.hits.dropLast }, .resolved)
        | .block => ({ b with hits := b.hits.dropLast }, .thrown)
      else (b, .resolved)

/-- `ApiRateGuard.afterRequest`: roll the tentative timestamp back when the
request is not to be counted. -/
def afterRequest (b : Bucket) (count : Bool) : Bucket :=
  if count then b else { b with hits := b.hits.dropLast }

/-- Result of one `guard`/`guardFetch` call. -/
inductive GuardRes where
  | value
  | opError
  | blockedErr
  | suspended
deriving DecidableEq, Repr

/-- `ApiRateGuard.guard` (and `guardFetch`, which has the same shape with
`fetch` as the operation): one call that runs to completion, for a single
key.  `allowed` is `cfg.allowKey key`, `guardEnabled` is the kill-switch
flag read by `beforeRequest`, `opOk` tells whether the wrapped operation
succeeds.  The returned `Bool` records whether the operation was invoked. -/
def guardCall (cfg : Cfg) (allowed guardEnabled : Bool) (b : Bucket)
    (now : Nat) (opOk : Bool) : Bucket × GuardRes × Bool :=
  if !allowed then (b, if opOk then .value else .opError, true)
  else
    match beforeRequest cfg guardEnabled b now with
    | (b', .resolved) =>
      if opOk then (afterRequest b' true, .value, true)
      else (afterRequest b' cfg.countOnFailure, .opError, true)
    | (b', .thrown) => (b', .blockedErr, false)
    | (b', .suspended _) => (b', .suspended, false)

/-- One call of a guard trace: its `Date.now()` timestamp, whether the
wrapped operation succeeds, and the two per-call environment reads
(`getFlags().guardEnabled` and `cfg.allowKey key`). -/
structure Call where
  now : Nat
  opOk : Bool
  guardEnabled : Bool
  allowed : Bool
deriving DecidableEq, Repr

/-- Trace state for one key: the bucket plus ghost logs of the timestamps of
calls whose wrapped operation was invoked and of the per-call results. -/
structure GState where
  bucket : Bucket
  invoked : List Nat
  results : List GuardRes
deriving DecidableEq, Repr

/-- Initial trace state: lazily created fresh bucket, nothing invoked. -/
def initG : GState := { bucket := mkBucket, invoked := [], results := [] }

/-- One trace step: run `guardCall` and record ghost data. -/
def traceStep (cfg : Cfg) (s : GState) (c : Call) : GState :=
  let r := guardCall cfg c.allowed c.guardEnabled s.bucket c.now c.opOk
  { bucket := r.1
    invoked := if r.2.2 then s.invoked ++ [c.now] else s.invoked
    results := s.results ++ [r.2.1] }

/-- Run a whole sequence of guarded calls for one key. -/
def runTrace (cfg : Cfg) (calls : List Call) : GState :=
  calls.foldl (traceStep cfg) initG

/-- Number of timestamps of `l` inside the closed window `[s, s + W]`. -/
def countWindow (s W : Nat) (l : List Nat) : Nat :=
  (l.filter (fun t => decide (s ≤ t ∧ t ≤ s + W))).length

/-- The sliding-window property claimed for the rate guard: no window of
length `windowMs` contains more than `maxRequests` timestamps of calls that
reached the wrapped operation. -/
def slidingWindowOK (cfg : Cfg) (calls : List Call) : Prop :=
  ∀ s : Nat, countWindow s cfg.windowMs (runTrace cfg calls).invoked ≤ cfg.maxRequests

/-- A `block`-strategy configuration with `countOnFailure = false`
(`windowMs = 100`, `maxRequests = 1`), used to refute claim C1 as stated. -/
def cexCfg : Cfg :=
  { windowMs := 100, maxRequests := 1, blockDurationMs := 100
    reportDebounceMs := 5000, countOnFailure := false, overflowStrategy := .block }

/-- Two calls: one failing call at `t = 0` (rolled back because
`countOnFailure = false`), one succeeding call at `t = 1`. -/
def cexCalls : List Call :=
  [{ now := 0, opOk := false, guardEnabled := true, allowed := true },
   { now := 1, opOk := true, guardEnabled := true, allowed := true }]

/-- A `drop`-strategy configuration (`windowMs = 100`, `maxRequests = 1`). -/
def dropCfg : Cfg :=
  { windowMs := 100, maxRequests := 1, blockDurationMs := 100
    reportDebounceMs := 5000, countOnFailure := true, overflowStrategy := .drop }

/-- Three successful calls at `t = 0, 1, 2` against `dropCfg`: the second
exceeds `maxRequests`, the third arrives while the bucket is blocked. -/
def dropCalls : List Call :=
  [{ now := 0, opOk := true, guardEnabled := true, allowed := true },
   { now := 1, opOk := true, guardEnabled := true, allowed := true },
   { now := 2, opOk := true, guardEnabled := true, allowed := true }]

/-- Decomposition property accumulated at admission time: whenever `t` was
admitted, at most `maxRequests` of the timestamps admitted so far (the new
one included) lay in the window `[t - W, t]`. -/
def Admissible (W N : Nat) (l : List Nat) : Prop :=
  ∀ pre t post, l = pre ++ t :: post →
    ((pre ++ [t]).filter (fun x => decide (t - W ≤ x))).length ≤ N

/-- Invariant tying the bucket to the ghost log of invoked timestamps, for
`block`-strategy traces with `countOnFailure = true`; `lastNow` is the
timestamp of the most recent call (`0` initially). -/
structure GuardInv (cfg : Cfg) (s : GState) (lastNow : Nat) : Prop where
  sorted : s.invoked.Sorted (· ≤ ·)
  bounded : ∀ x ∈ s.invoked, x ≤ lastNow
  hits_eq : s.bucket.hits
    = s.invoked.filter (fun x => decide (lastNow - cfg.windowMs ≤ x))
  adm : Admissible cfg.windowMs cfg.maxRequests s.invoked

end RateGuard

namespace CircuitBreaker

/-- Breaker state (`State` in `circuitBreaker.ts`; `open` is a Lean keyword,
so the constructor is called `opened`). -/
inductive BState where
  | closed
  | opened
  | half
deriving DecidableEq, Repr

/-- `BreakerCfg`: full configuration of one breaker. -/
structure BreakerCfg where
  failureThreshold : Nat
  cooldownMs : Nat
  halfOpenMax : Nat
deriving DecidableEq, Repr

/-- The module-level `defaults`. -/
def defaults : BreakerCfg :=
  { failureThreshold := 5, cooldownMs := 10000, halfOpenMax := 2 }

/-- `Partial<BreakerCfg>`: the caller-supplied overrides. -/
structure PartialCfg where
  failureThreshold : Option Nat := none
  cooldownMs : Option Nat := none
  halfOpenMax : Option Nat := none
deriving DecidableEq, Repr

/-- The spread `{ ...defaults, ...cfg }` used when a breaker is created. -/
def mergeCfg (cfg : PartialCfg) : BreakerCfg :=
  { failureThreshold := cfg.failureThreshold.getD defaults.failureThreshold
    cooldownMs := cfg.cooldownMs.getD defaults.cooldownMs
    halfOpenMax := cfg.halfOpenMax.getD defaults.halfOpenMax }

/-- One entry of the module-level `breakers` map. -/
structure Breaker where
  state : BState
  failures : Nat
  nextTry : Nat
  halfOpenInFlight : Nat
  cfg : BreakerCfg
deriving DecidableEq, Repr

/-- The fresh breaker built by `getBreaker` on first use of a key. -/
def mkBreaker (cfg : BreakerCfg) : Breaker :=
  { state := .closed, failures := 0, nextTry := 0, halfOpenInFlight := 0, cfg := cfg }

/-- Outcome of the synchronous admission prefix of `wrapWithBreaker`. -/
inductive Admit where
  | rejectedOpen
  | rejectedSaturated
  | admitted
deriving DecidableEq, Repr

/-- The synchronous prefix of `wrapWithBreaker`, up to (but excluding) the
invocation of `fn`: lazy `open → half` transition, saturation check, and the
half-open in-flight increment. -/
def beforeInvoke (b : Breaker) (now : Nat) : Breaker × Admit :=
  let b1 :=
    if b.state = .opened then
      if now < b.nextTry then b
      else { b with state := .half, halfOpenInFlight := 0 }
    else b
  if b1.state = .opened then (b1, .rejectedOpen)
  else if b1.state = .half ∧ b1.cfg.halfOpenMax ≤ b1.halfOpenInFlight then
    (b1, .rejectedSaturated)
  else if b1.state = .half then
    ({ b1 with halfOpenInFlight := b1.halfOpenInFlight + 1 }, .admitted)
  else (b1, .admitted)

/-- `onSuccess`: reset the failure counter, close the breaker. -/
def onSuccess (b : Breaker) : Breaker :=
  let b := { b with failures := 0 }
  if b.state ≠ .closed then { b with state := .closed } else b

/-- `onFailure` at time `now` (`Date.now()` at settlement). -/
def onFailure (b : Breaker) (now : Nat) : Breaker :=
  let b := { b with failures := b.failures + 1 }
  if b.state = .half ∨ b.cfg.failureThreshold ≤ b.failures then
    { b with state := .opened, nextTry := now + b.cfg.cooldownMs }
  else b

/-- The `finally` clause of `wrapWithBreaker`: decrement the half-open
in-flight counter, but only if the state is still `half` at that point. -/
def finallyStep (b : Breaker) : Breaker :=
  if b.state = .half then { b with halfOpenInFlight := b.halfOpenInFlight - 1 }
  else b

/-- Settlement of an admitted call: `onSuccess`/`onFailure` followed by the
`finally` clause. -/
def settle (b : Breaker) (ok : Bool) (now : Nat) : Breaker :=
  finallyStep (if ok then onSuccess b else onFailure b now)

/-- Result of one `wrapWithBreaker` call. -/
inductive CallRes where
  | value
  | opError
  | errOpen
  | errSaturated
deriving DecidableEq, Repr

/-- One sequential `wrapWithBreaker` call on a single breaker: admission at
time `tStart`, the wrapped operation settling (`ok`) at time `tSettle`.
The returned `Bool` records whether the operation was invoked. -/
def breakerCall (b : Breaker) (tStart tSettle : Nat) (ok : Bool) :
    Breaker × CallRes × Bool :=
  match beforeInvoke b tStart with
  | (b1, .rejectedOpen) => (b1, .errOpen, false)
  | (b1, .rejectedSaturated) => (b1, .errSaturated, false)
  | (b1, .admitted) =>
    (settle b1 ok tSettle, if ok then .value else .opError, true)

/-- Run a sequence of failing sequential calls (`(tStart, tSettle)` pairs). -/
def runFail (b : Breaker) (times : List (Nat × Nat)) : Breaker :=
  times.foldl (fun b tp => (breakerCall b tp.1 tp.2 false).1) b

/-- Interleaved semantics for concurrency claims: an event either runs the
synchronous admission prefix of a call, or settles one in-flight operation
(success or failure) at a given time. -/
inductive Ev where
  | start (now : Nat)
  | settleOk (now : Nat)
  | settleErr (now : Nat)
deriving DecidableEq, Repr

/-- Interleaved state: the breaker plus the number of in-flight admitted
operations (settle events for which no operation is in flight cannot occur
and are no-ops). -/
structure CState where
  b : Breaker
  inflight : Nat
deriving DecidableEq, Repr

/-- One interleaved step. -/
def cstep (s : CState) (e : Ev) : CState :=
  match e with
  | .start now =>
    let r := beforeInvoke s.b now
    { b := r.1, inflight := if r.2 = .admitted then s.inflight + 1 else s.inflight }
  | .settleOk now =>
    if s.inflight = 0 then s
    else { b := settle s.b true now, inflight := s.inflight - 1 }
  | .settleErr now =>
    if s.inflight = 0 then s
    else { b := settle s.b false now, inflight := s.inflight - 1 }

/-- Run an interleaved event trace from a fresh breaker. -/
def runC (cfg : BreakerCfg) (es : List Ev) : CState :=
  es.foldl cstep { b := mkBreaker cfg, inflight := 0 }

/-- The module-level `breakers` map. -/
def Breakers : Type := String → Option Breaker

/-- The empty map. -/
def emptyBreakers : Breakers := fun _ => none

/-- Store a (possibly new) breaker under a key. -/
def updateB (m : Breakers) (k : String) (b : Breaker) : Breakers :=
  fun k' => if k' = k then some b else m k'

/-- `getBreaker`: look the key up, creating the breaker — with configuration
`{ ...defaults, ...cfg }` — only if absent; an existing breaker's
configuration is left untouched and the `cfg` argument is ignored. -/
def getBreaker (m : Breakers) (key : String) (cfg : PartialCfg) :
    Breakers × Breaker :=
  match m key with
  | some b => (m, b)
  | none =>
    let b := mkBreaker (mergeCfg cfg)
    (updateB m key b, b)

/-- `wrapWithBreaker` at the map level (sequential call). -/
def wrapWithBreaker (m : Breakers) (key : String) (cfg : PartialCfg)
    (tStart tSettle : Nat) (ok : Bool) : Breakers × CallRes :=
  let r := getBreaker m key cfg
  let c := breakerCall r.2 tStart tSettle ok
  (updateB r.1 key c.1, c.2.1)

/-- One call description for map-level traces. -/
structure WOp where
  key : String
  cfg : PartialCfg
  tStart : Nat
  tSettle : Nat
  ok : Bool

/-- Fold a sequence of map-level calls. -/
def runWraps (m : Breakers) (ops : List WOp) : Breakers :=
  ops.foldl (fun m o => (wrapWithBreaker m o.key o.cfg o.tStart o.tSettle o.ok).1) m

end CircuitBreaker

namespace Dedupe

/-- Entry state (`State` in `dedupe.ts`). -/
inductive EState where
  | pending
  | cached
deriving DecidableEq, Repr

/-- One `Entry` of the `inFlight` map, for a single key.  Promises are
modelled by the identifier of the underlying execution of `op`: two callers
holding the same identifier hold the same promise and therefore resolve to
the identical value (the source's reassignments of `entry.promise` —
the chained promise at creation, `Promise.resolve(res)` once cached — never
change which execution's result the promise yields). -/
structure Entry where
  promise : Nat
  expireAt : Nat
  state : EState
  startedAt : Nat
deriving DecidableEq, Repr

/-- Dedupe state for one key, with ghost logs: `started` collects the
identifiers of executions of `op` actually started, `returns` the promise
identifier handed to each caller in order. -/
structure DState where
  entry : Option Entry
  nextExec : Nat
  started : List Nat
  returns : List Nat
deriving DecidableEq, Repr

/-- Initial dedupe state: no entry for the key. -/
def initD : DState := { entry := none, nextExec := 0, started := [], returns := [] }

/-- The fresh-operation path of `dedupe`: start a new execution, install a
`pending` entry with `expireAt = now + ttlMs` (`ttlMs > 0 ? ttlMs : 0` is
`ttlMs` on `Nat`), and hand the new promise to the caller. -/
def dedupeFresh (ttlMs : Nat) (s : DState) (now : Nat) : DState :=
  { entry := some
      { promise := s.nextExec, expireAt := now + ttlMs
        state := .pending, startedAt := now }
    nextExec := s.nextExec + 1
    started := s.started ++ [s.nextExec]
    returns := s.returns ++ [s.nextExec] }

/-- `dedupe(key, op, ttlMs)`: coalesce onto a pending or unexpired cached
entry, otherwise start fresh. -/
def dedupeCall (ttlMs : Nat) (s : DState) (now : Nat) : DState :=
  match s.entry with
  | some e =>
    if e.state = .pending ∨ now < e.expireAt then
      { s with returns := s.returns ++ [e.promise] }
    else dedupeFresh ttlMs s now
  | none => dedupeFresh ttlMs s now

/-- The `.then` handler of the entry's promise chain, for execution
`execId`, running at time `now`: with a positive TTL the captured entry is
converted to `cached` (visible only if the map still holds that entry);
with TTL `0` the key is deleted from the map unconditionally. -/
def dedupeSettleOk (ttlMs : Nat) (s : DState) (execId : Nat) (now : Nat) : DState :=
  if 0 < ttlMs then
    match s.entry with
    | some e =>
      if e.promise = execId then
        { s with entry := some { e with state := .cached, expireAt := now + ttlMs } }
      else s
    | none => s
  else { s with entry := none }

/-- The `.catch` handler: on rejection the key is always deleted, so the
error is never cached. -/
def dedupeSettleErr (s : DState) : DState :=
  { s with entry := none }

/-- The eviction timer scheduled `ttlMs + 25` after resolution. -/
def dedupeEvict (s : DState) (now : Nat) : DState :=
  match s.entry with
  | some e =>
    if e.state = .cached ∧ e.expireAt ≤ now then { s with entry := none } else s
  | none => s

end Dedupe

namespace MemQueue

/-- `enqueue` of the in-memory offline queue (`offlineQueue.ts`): drop the
oldest event once `maxBuffered` is reached, then append. -/
def enqueue (maxBuffered : Nat) (q : List α) (ev : α) : List α :=
  let q := if maxBuffered ≤ q.length then q.tail else q
  q ++ [ev]

/-- State of the installed in-memory queue: the buffer plus a ghost log of
every event delivered to the real sender, in delivery order. -/
structure MState (α : Type) where
  queue : List α
  delivered : List α
deriving DecidableEq, Repr

/-- Events of the in-memory queue machine: a telemetry report arriving with
the given connectivity, and the `online` event that triggers `flushQueue`. -/
inductive MEvent (α : Type) where
  | report (online : Bool) (ev : α)
  | goOnline
deriving DecidableEq, Repr

/-- One step: the wrapped `addAction`/`addError` sends directly while
online and enqueues while offline; `flushQueue` (running on the `online`
event, hence with `navigator.onLine` true) sends the whole buffer in
insertion order to the real sender and clears it. -/
def mstep (maxBuffered : Nat) (s : MState α) : MEvent α → MState α
  | .report true ev => { s with delivered := s.delivered ++ [ev] }
  | .report false ev => { s with queue := enqueue maxBuffered s.queue ev }
  | .goOnline => { queue := [], delivered := s.delivered ++ s.queue }

/-- Run the in-memory queue machine from an empty buffer. -/
def runM (maxBuffered : Nat) (es : List (MEvent α)) : MState α :=
  es.foldl (mstep maxBuffered) { queue := [], delivered := [] }

end MemQueue

namespace PQueue

/-- A minimal JSON value model for the persistent queue's storage format. -/
inductive Json where
  | null
  | bool (b : Bool)
  | num (n : Nat)
  | str (s : String)
  | arr (xs : List Json)
  | obj (fields : List (String × Json))

/-- String escaping of `JSON.stringify`, restricted to the quote and
backslash escapes (the only ones the modelled values need). -/
def escapeString (s : String) : String :=
  String.join (s.toList.map (fun c =>
    if c = '"' ∨ c = '\\' then String.mk ['\\', c] else String.mk [c]))

mutual

/-- `JSON.stringify` on the model. -/
def stringify : Json → String
  | .null => "null"
  | .bool b => if b then "true" else "false"
  | .num n => toString n
  | .str s => "\"" ++ escapeString s ++ "\""
  | .arr xs => "[" ++ stringifyArr xs ++ "]"
  | .obj fs => "\x7b" ++ stringifyObj fs ++ "\x7d"

/-- Helper: comma-separated array elements. -/
def stringifyArr : List Json → String
  | [] => ""
  | [x] => stringify x
  | x :: xs => stringify x ++ "," ++ stringifyArr xs

/-- Helper: comma-separated `"key":value` pairs. -/
def stringifyObj : List (String × Json) → String
  | [] => ""
  | [kv] => "\"" ++ escapeString kv.1 ++ "\":" ++ stringify kv.2
  | kv :: fs =>
    "\"" ++ escapeString kv.1 ++ "\":" ++ stringify kv.2 ++ "," ++ stringifyObj fs

end

/-- A JavaScript `Error` as the persistent queue sees it: `name`, `message`
and `stack`. -/
structure ErrorVal where
  name : String
  message : String
  stack : String
deriving DecidableEq, Repr

/-- `serializeError` on an `Error` instance: the JSON text of
`{ n: err.name, m: err.message, s: err.stack }`. -/
def serializeError (err : ErrorVal) : String :=
  stringify (Json.obj
    [("n", .str err.name), ("m", .str err.message), ("s", .str err.stack)])

/-- `QueuedEvent` of `offlineQueue.persistent.ts`: the discriminated union
stored in the queue, with the source's field names (`t`/`n`/`a`/`s`/`ts`
for actions, `t`/`e`/`c`/`s`/`ts` for errors); optional fields that were
passed as `undefined` are absent. -/
inductive QueuedEvent where
  | action (n : String) (a : Option Json) (s : Option Nat) (ts : Nat)
  | error (e : String) (c : Option Json) (s : Option Nat) (ts : Nat)

/-- An optional record field: present fields only (`JSON.stringify` omits
keys holding `undefined`). -/
def optField (k : String) : Option Json → List (String × Json)
  | some v => [(k, v)]
  | none => []

/-- The JSON record a `QueuedEvent` serializes to, keys in insertion
order. -/
def encodeEvent : QueuedEvent → Json
  | .action n a s ts =>
    .obj ([("t", .str "a"), ("n", .str n)] ++ optField "a" a
      ++ optField "s" (s.map .num) ++ [("ts", .num ts)])
  | .error e c s ts =>
    .obj ([("t", .str "e"), ("e", .str e)] ++ optField "c" c
      ++ optField "s" (s.map .num) ++ [("ts", .num ts)])

/-- The storage entry: the JSON array of the queued events in order. -/
def encodeEvents (l : List QueuedEvent) : Json :=
  .arr (l.map encodeEvent)

/-- Configuration of the persistent queue (after defaults were applied). -/
structure PCfg where
  maxBuffered : Nat
  byteCap : Nat
deriving DecidableEq, Repr

/-- The module defaults (`maxBuffered 400`, `byteCap 1_500_000`). -/
def pDefaults : PCfg := { maxBuffered := 400, byteCap := 1500000 }

/-- `shrinkToByteCap`: while the serialized queue exceeds `byteCap`, drop
the oldest coarse 10% chunk (at least one event). -/
def shrinkToByteCap (cap : Nat) (q : List QueuedEvent) : List QueuedEvent :=
  if q.length = 0 ∨ (stringify (encodeEvents q)).length ≤ cap then q
  else shrinkToByteCap cap (q.drop (max 1 (q.length / 10)))
termination_by q.length
decreasing_by
  simp only [List.length_drop]
  rename_i h
  simp only [not_or, not_le] at h
  omega

/-- `push`: append, apply the `maxBuffered` count trim (`splice` of the
overflow from the front) and the byte-cap trim. -/
def push (cfg : PCfg) (q : List QueuedEvent) (ev : QueuedEvent) : List QueuedEvent :=
  let q := q ++ [ev]
  let q := if cfg.maxBuffered < q.length then q.drop (q.length - cfg.maxBuffered) else q
  shrinkToByteCap cfg.byteCap q

/-- `writeLS`: attempt the storage write; `fits` tells whether the store
accepts the given serialized list.  On failure, drop the oldest
`ceil(20%)` of the events (the source's in-place `splice` mutates the
caller's array, so the possibly-trimmed list is returned too) and retry
once, giving up silently. -/
def writeLS (fits : List QueuedEvent → Bool) (events : List QueuedEvent)
    (storage : Option Json) : Option Json × List QueuedEvent :=
  if fits events then (some (encodeEvents events), events)
  else if events.length ≠ 0 then
    let events2 := events.drop ((events.length + 4) / 5)
    if fits events2 then (some (encodeEvents events2), events2)
    else (storage, events2)
  else (storage, events)

/-- The flush loop of `tryFlush`: iterate over a copy of the queue, sending
each event and shifting it off the live queue, stopping at the first send
that throws.  Returns `(attempted, sent, remaining)`. -/
def flushLoop (fails : QueuedEvent → Bool) :
    List QueuedEvent → List QueuedEvent × List QueuedEvent × List QueuedEvent
  | [] => ([], [], [])
  | ev :: rest =>
    if fails ev then ([ev], [], ev :: rest)
    else
      let r := flushLoop fails rest
      (ev :: r.1, ev :: r.2.1, r.2.2)

/-- `tryFlush`: no-op unless online with a non-empty queue and both senders
wired; otherwise run the flush loop and persist the remaining queue.
Returns `(queue', storage', sent)`. -/
def tryFlush (online wired : Bool) (fails : QueuedEvent → Bool)
    (fits : List QueuedEvent → Bool) (q : List QueuedEvent)
    (storage : Option Json) :
    List QueuedEvent × Option Json × List QueuedEvent :=
  if online = false ∨ q.length = 0 then (q, storage, [])
  else if wired = false then (q, storage, [])
  else
    let r := flushLoop fails q
    let w := writeLS fits r.2.2 storage
    (w.2, w.1, r.2.1)

/-- State of the persistent-queue machine: the in-memory queue and the
storage entry (`None` = key absent). -/
structure PState where
  q : List QueuedEvent
  storage : Option Json

/-- Events of the persistent-queue machine.  `action`/`error` are the
enqueue hooks (`__DD_ENQUEUE_ACTION__`/`__DD_ENQUEUE_ERROR__`): when online
with the matching sender wired they send directly, otherwise they `push`.
`write` is the debounced write timer firing; `flush` is `tryFlush`. -/
inductive PEvent where
  | action (online wired : Bool) (n : String) (a : Option Json) (s : Option Nat) (now : Nat)
  | error (online wired : Bool) (e : ErrorVal) (c : Option Json) (s : Option Nat) (now : Nat)
  | write
  | flush (online wired : Bool) (fails : QueuedEvent → Bool)

/-- One step of the persistent-queue machine. -/
def pstep (cfg : PCfg) (fits : List QueuedEvent → Bool) (s : PState) :
    PEvent → PState
  | .action online wired n a sr now =>
    if online ∧ wired then s
    else { s with q := push cfg s.q (.action n a sr now) }
  | .error online wired e c sr now =>
    if online ∧ wired then s
    else { s with q := push cfg s.q (.error (serializeError e) c sr now) }
  | .write =>
    let w := writeLS fits s.q s.storage
    { q := w.2, storage := w.1 }
  | .flush online wired fails =>
    let r := tryFlush online wired fails fits s.q s.storage
    { q := r.1, storage := r.2.1 }

/-- Run the persistent-queue machine from an empty queue and absent storage
entry (a fresh install). -/
def runP (cfg : PCfg) (fits : List QueuedEvent → Bool) (es : List PEvent) : PState :=
  es.foldl (pstep cfg fits) { q := [], storage := none }

/-- Whether an optional JSON value is a given string. -/
def isStr (o : Option Json) (v : String) : Bool :=
  match o with
  | some (.str s) => s == v
  | _ => false

/-- The record shape claimed by the spec for a stored event: a `kind` field
holding `"action"` or `"error"`, together with the spelled-out field names
(`name`/`serializedError`, `enqueuedAt`). -/
def specShape (j : Json) : Bool :=
  match j with
  | .obj fs =>
    (isStr (fs.lookup "kind") "action" && (fs.lookup "name").isSome
        && (fs.lookup "enqueuedAt").isSome)
      || (isStr (fs.lookup "kind") "error" && (fs.lookup "serializedError").isSome
        && (fs.lookup "enqueuedAt").isSome)
  | _ => false

/-- The record shape the code actually writes: a `t` discriminator holding
`"a"` or `"e"`, the payload under `n`/`a` or `e`/`c`, the sample rate under
`s`, the enqueue timestamp under `ts`. -/
def actualShape (j : Json) : Bool :=
  match j with
  | .obj fs =>
    ((isStr (fs.lookup "t") "a" && (fs.lookup "n").isSome)
        || (isStr (fs.lookup "t") "e" && (fs.lookup "e").isSome))
      && (fs.lookup "ts").isSome
  | _ => false

/-- The queued event a machine event pushes (empty when the event sends
directly, fires a timer, or flushes). -/
def evOf : PEvent → List QueuedEvent
  | .action online wired n a s now =>
    if online ∧ wired then [] else [.action n a s now]
  | .error online wired e c s now =>
    if online ∧ wired then [] else [.error (serializeError e) c s now]
  | .write => []
  | .flush _ _ _ => []

/-- All events pushed along a trace, in order. -/
def pushedOf : List PEvent → List QueuedEvent
  | [] => []
  | e :: es => evOf e ++ pushedOf es

end PQueue

namespace Retry

/-- The retry loop of `retry.ts`.  `results i` is the outcome of the `i`-th
invocation of `op` (the `attempt` counter equals the number of invocations
already made).  Backoff sleeping only delays the next invocation and is not
modelled; the sampled telemetry carries no loop state.  Returns the final
outcome together with the total number of invocations of `op`. -/
def retryGo (shouldRetry : E → Nat → Bool) (results : Nat → Except E V)
    (retries attempt : Nat) : Except E V × Nat :=
  match results attempt with
  | .ok v => (.ok v, attempt + 1)
  | .error e =>
    if retries ≤ attempt ∨ shouldRetry e attempt = false then (.error e, attempt + 1)
    else retryGo shouldRetry results retries (attempt + 1)
termination_by retries - attempt
decreasing_by
  rename_i h
  simp only [not_or] at h
  omega

/-- `retry(label, op, cfg)` with `attempt` starting at `0`.  The default
`shouldRetry` predicate is `() => true`. -/
def retryRun (shouldRetry : E → Nat → Bool) (retries : Nat)
    (results : Nat → Except E V) : Except E V × Nat :=
  retryGo shouldRetry results retries 0

end Retry

open RateGuard in
/-- C3: the claim says that under the `drop` strategy a call that arrives
while the bucket is blocked, or that exceeds `maxRequests`, resolves with an
undefined result and never invokes the wrapped operation.  The code
contradicts its own documentation ("silently drop and resolve to
undefined"): `beforeRequest`'s `drop` branches resolve instead of
short-circuiting `guard`/`guardFetch`, so the operation is invoked and its
value returned.  Here the second call (over the limit) and the third call
(while blocked) both reach the operation and both resolve with the
operation's value. -/
theorem rateGuard_drop_invokes_operation :
    (runTrace dropCfg dropCalls).invoked = [0, 1, 2] ∧
    (runTrace dropCfg dropCalls).results =
      [GuardRes.value, GuardRes.value, GuardRes.value] := by
  decide

open RateGuard in
/-- C1 counterexample: the claim as stated quantifies over every guard
configured with `overflowStrategy = "block"`, regardless of
`countOnFailure`.  With `countOnFailure = false` (`cexCfg`,
`maxRequests = 1`, `windowMs = 100`) a failing call at `t = 0` is rolled
back by `afterRequest`, so a second call at `t = 1` also reaches the
wrapped operation: two operation invocations inside the window
`[0, 100]`. -/
theorem rateGuard_window_counterexample :
    ¬ (cexCfg.overflowStrategy = Strategy.block →
        (cexCalls.map Call.now).Sorted (· ≤ ·) →
        (∀ c ∈ cexCalls, c.guardEnabled = true ∧ c.allowed = true) →
        slidingWindowOK cexCfg cexCalls) := by
  intro h
  exact absurd (h rfl (by decide) (by decide) 0) (by decide)

open MemQueue in
/-- C6: with `maxBuffered = 3`, reporting `a1, a2, a3, a4` while offline and
then receiving the `online` event delivers exactly `[a2, a3, a4]`, in that
order, to the real sender; and (whenever `a1` is distinct from the others,
as in the claim's scenario) `a1` is never delivered. -/
theorem memQueue_bounded_fifo_delivery {α : Type} (a1 a2 a3 a4 : α)
    (h2 : a1 ≠ a2) (h3 : a1 ≠ a3) (h4 : a1 ≠ a4) :
    (runM 3 [MEvent.report false a1, .report false a2, .report false a3,
        .report false a4, .goOnline]).delivered = [a2, a3, a4] ∧
      a1 ∉ (runM 3 [MEvent.report false a1, .report false a2, .report false a3,
        .report false a4, .goOnline]).delivered := by
  refine ⟨by simp [runM, mstep, enqueue], ?_⟩
  simp [runM, mstep, enqueue, h2, h3, h4]

open MemQueue in
/-- Witness for C6 at concrete events `1, 2, 3, 4`. -/
theorem memQueue_bounded_fifo_delivery_witness :
    (runM 3 [MEvent.report false (1 : Nat), .report false 2, .report false 3,
        .report false 4, .goOnline]).delivered = [2, 3, 4] ∧
      1 ∉ (runM 3 [MEvent.report false (1 : Nat), .report false 2, .report false 3,
        .report false 4, .goOnline]).delivered :=
  memQueue_bounded_fifo_delivery 1 2 3 4 (by decide) (by decide) (by decide)

open Retry in
/-- C9: for an operation that rejects on its first two invocations and
resolves on the third, `retry(label, op, { retries: 5 })` — with the
default always-retry predicate — resolves with the third invocation's
value and the operation is invoked exactly 3 times. -/
theorem retry_two_failures_then_success {E V : Type} (e0 e1 : E) (v : V)
    (f : Nat → Except E V) (h0 : f 0 = .error e0) (h1 : f 1 = .error e1)
    (h2 : f 2 = .ok v) :
    retryRun (fun _ _ => true) 5 f = (.ok v, 3) := by
  simp [retryRun, retryGo, h0, h1, h2]

open Retry in
/-- Witness for C9 on a concrete operation. -/
theorem retry_two_failures_then_success_witness :
    retryRun (fun _ _ => true) 5
        (fun n => if n < 2 then Except.error 0 else Except.ok (7 : Nat))
      = (.ok 7, 3) :=
  retry_two_failures_then_success 0 0 7 _ rfl rfl rfl

namespace CircuitBreaker

/-- The admission prefix never touches the stored configuration. -/
theorem beforeInvoke_cfg (b : Breaker) (now : Nat) :
    (beforeInvoke b now).1.cfg = b.cfg := by
  unfold beforeInvoke
  dsimp only
  split_ifs <;> rfl

/-- Settlement never touches the stored configuration. -/
theorem settle_cfg (b : Breaker) (ok : Bool) (now : Nat) :
    (settle b ok now).cfg = b.cfg := by
  unfold settle finallyStep onSuccess onFailure
  dsimp only
  split_ifs <;> rfl

/-- A whole sequential call never touches the stored configuration. -/
theorem breakerCall_cfg (b : Breaker) (t1 t2 : Nat) (ok : Bool) :
    (breakerCall b t1 t2 ok).1.cfg = b.cfg := by
  unfold breakerCall
  have hb := beforeInvoke_cfg b t1
  rcases h : beforeInvoke b t1 with ⟨b1, a⟩
  rw [h] at hb
  cases a <;> simp_all [settle_cfg]

end CircuitBreaker

open CircuitBreaker in
/-- C10: the breaker configuration for a key is fixed by the first
`wrapWithBreaker` call that uses the key — it is `{ ...defaults, ...cfg0 }`
for the `cfg0` passed then — and any sequence of later calls (with
arbitrary keys, `cfg` arguments, times and outcomes) leaves that stored
configuration unchanged. -/
theorem breaker_cfg_fixed_at_creation (key : String) (cfg0 : PartialCfg)
    (t1 t2 : Nat) (ok : Bool) (ops : List WOp) :
    ((wrapWithBreaker emptyBreakers key cfg0 t1 t2 ok).1 key).map Breaker.cfg
        = some (mergeCfg cfg0) ∧
      (runWraps (wrapWithBreaker emptyBreakers key cfg0 t1 t2 ok).1 ops key).map
          Breaker.cfg = some (mergeCfg cfg0) := by
  have hstep : ∀ (m : Breakers) (o : WOp) (c : BreakerCfg),
      (m key).map Breaker.cfg = some c →
      ((wrapWithBreaker m o.key o.cfg o.tStart o.tSettle o.ok).1 key).map Breaker.cfg
        = some c := by
    intro m o c hm
    rcases hmk : m key with _ | b
    · rw [hmk] at hm; exact absurd hm (by simp)
    rw [hmk] at hm
    simp only [Option.map_some', Option.some.injEq] at hm
    by_cases hk : o.key = key
    · rw [hk]
      have h1 : (wrapWithBreaker m key o.cfg o.tStart o.tSettle o.ok).1 key
          = some (breakerCall b o.tStart o.tSettle o.ok).1 := by
        unfold wrapWithBreaker getBreaker
        rw [hmk]
        simp [updateB]
      rw [h1]
      simp [breakerCall_cfg, hm]
    · have h1 : (wrapWithBreaker m o.key o.cfg o.tStart o.tSettle o.ok).1 key = m key := by
        unfold wrapWithBreaker getBreaker
        rcases hmo : m o.key with _ | b2 <;> simp [updateB, Ne.symm hk]
      rw [h1, hmk]
      simp [hm]
  have hfirst : ((wrapWithBreaker emptyBreakers key cfg0 t1 t2 ok).1 key).map
      Breaker.cfg = some (mergeCfg cfg0) := by
    simp [wrapWithBreaker, getBreaker, emptyBreakers, updateB, breakerCall_cfg,
      mkBreaker]
  refine ⟨hfirst, ?_⟩
  generalize (wrapWithBreaker emptyBreakers key cfg0 t1 t2 ok).1 = m at hfirst ⊢
  induction ops generalizing m with
  | nil => simpa [runWraps] using hfirst
  | cons o rest ih =>
    simp only [runWraps, List.foldl_cons]
    exact ih _ (hstep m o _ hfirst)

namespace CircuitBreaker

/-- Explicit form of `onFailure`. -/
theorem onFailure_eq (b : Breaker) (now : Nat) :
    onFailure b now =
      if b.state = .half ∨ b.cfg.failureThreshold ≤ b.failures + 1 then
        { b with
          failures := b.failures + 1
          state := .opened
          nextTry := now + b.cfg.cooldownMs }
      else { b with failures := b.failures + 1 } := by
  unfold onFailure
  dsimp only

/-- Explicit form of `onSuccess`. -/
theorem onSuccess_eq (b : Breaker) :
    onSuccess b = { b with failures := 0, state := .closed } := by
  unfold onSuccess
  dsimp only
  split_ifs with h
  · rfl
  · simp only [ne_eq, Decidable.not_not] at h
    cases b
    simp_all

/-- After `onSuccess`/`onFailure` the state is never `half`: a success
closes the breaker and a failure of a half-open probe opens it. -/
theorem handler_not_half (b : Breaker) (ok : Bool) (now : Nat) :
    (if ok then onSuccess b else onFailure b now).state ≠ .half := by
  cases ok
  · rw [if_neg (by simp), onFailure_eq]
    split_ifs with h
    · simp
    · simp only [not_or] at h
      simpa using h.1
  · rw [if_pos rfl, onSuccess_eq]
    simp

/-- The `finally` clause is the identity away from `half`. -/
theorem finallyStep_of_not_half (b : Breaker) (h : b.state ≠ .half) :
    finallyStep b = b := by
  unfold finallyStep
  simp [h]

/-- Settlement leaves the half-open in-flight counter untouched: the
conditional decrement in the `finally` clause never fires, because the
success/failure handlers have already moved the state out of `half`. -/
theorem settle_inflight (b : Breaker) (ok : Bool) (now : Nat) :
    (settle b ok now).halfOpenInFlight = b.halfOpenInFlight := by
  unfold settle
  rw [finallyStep_of_not_half _ (handler_not_half b ok now)]
  cases ok
  · rw [if_neg (by simp), onFailure_eq]
    split_ifs <;> rfl
  · rw [if_pos rfl, onSuccess_eq]

/-- The admission prefix on a `closed` breaker admits and changes nothing. -/
theorem beforeInvoke_closed (b : Breaker) (now : Nat) (h : b.state = .closed) :
    beforeInvoke b now = (b, .admitted) := by
  unfold beforeInvoke
  simp [h]

/-- A sequential call on a `closed` breaker invokes the operation and
settles. -/
theorem breakerCall_closed (b : Breaker) (t1 t2 : Nat) (ok : Bool)
    (h : b.state = .closed) :
    breakerCall b t1 t2 ok
      = (settle b ok t2, if ok then CallRes.value else .opError, true) := by
  unfold breakerCall
  rw [beforeInvoke_closed b t1 h]

/-- The admission prefix rejects while the breaker is cooling down, leaving
the breaker untouched. -/
theorem beforeInvoke_open_cooling (b : Breaker) (now : Nat)
    (hst : b.state = .opened) (hnow : now < b.nextTry) :
    beforeInvoke b now = (b, .rejectedOpen) := by
  unfold beforeInvoke
  simp [hst, hnow]

/-- The admission prefix after the cooldown has elapsed: transition to
`half`, reset the counter, and (with `halfOpenMax ≥ 1`) admit the probe
with the counter at `1`. -/
theorem beforeInvoke_open_elapsed (b : Breaker) (now : Nat)
    (hst : b.state = .opened) (hnt : b.nextTry ≤ now)
    (hmax : 1 ≤ b.cfg.halfOpenMax) :
    beforeInvoke b now
      = ({ b with state := .half, halfOpenInFlight := 1 }, .admitted) := by
  unfold beforeInvoke
  simp only [hst, if_pos rfl, Nat.not_lt.mpr hnt, if_neg (by simp : ¬False)]
  split_ifs with h1 h2 h3 <;> simp_all

/-- Consecutive failing calls from a `closed` breaker open it exactly when
the failure counter reaches the threshold. -/
theorem runFail_closed_opens :
    ∀ (times : List (Nat × Nat)) (b : Breaker), b.state = .closed →
      times ≠ [] → b.failures + times.length = b.cfg.failureThreshold →
      (runFail b times).state = .opened := by
  intro times
  induction times with
  | nil => intro b _ hne _; exact absurd rfl hne
  | cons tp rest ih =>
    intro b hclosed _ hsum
    have hstep : (breakerCall b tp.1 tp.2 false).1 = finallyStep (onFailure b tp.2) := by
      rw [breakerCall_closed b tp.1 tp.2 false hclosed]
      rfl
    simp only [runFail, List.foldl_cons] at *
    rcases rest with _ | ⟨tp2, rest2⟩
    · -- last failing call: the counter reaches the threshold
      have hcond : b.cfg.failureThreshold ≤ b.failures + 1 := by
        simp only [List.length_cons, List.length_nil] at hsum
        omega
      simp only [List.foldl_nil, hstep, onFailure_eq, if_pos (Or.inr hcond)]
      rw [finallyStep_of_not_half _ (by simp)]
    · -- intermediate failing call: still below the threshold
      have hcond : ¬ (b.state = .half ∨ b.cfg.failureThreshold ≤ b.failures + 1) := by
        simp only [List.length_cons] at hsum
        rw [hclosed]
        simp only [not_or]
        refine ⟨by simp, ?_⟩
        omega
      have hb' : (breakerCall b tp.1 tp.2 false).1
          = { b with failures := b.failures + 1 } := by
        rw [hstep, onFailure_eq, if_neg hcond]
        rw [finallyStep_of_not_half _ (by simp [hclosed])]
      rw [hb']
      apply ih
      · simp [hclosed]
      · simp
      · dsimp only
        simp only [List.length_cons] at hsum ⊢
        omega

end CircuitBreaker

namespace CircuitBreaker

/-- Admission increments the in-flight counter of a below-capacity
half-open breaker, before the operation is invoked. -/
theorem beforeInvoke_half_inc (b : Breaker) (now : Nat) (hst : b.state = .half)
    (hlt : b.halfOpenInFlight < b.cfg.halfOpenMax) :
    beforeInvoke b now
      = ({ b with halfOpenInFlight := b.halfOpenInFlight + 1 }, .admitted) := by
  unfold beforeInvoke
  simp [hst, Nat.not_le.mpr hlt]

/-- The admission prefix rejects a saturated half-open breaker untouched. -/
theorem beforeInvoke_half_saturated (b : Breaker) (now : Nat)
    (hst : b.state = .half) (hcap : b.cfg.halfOpenMax ≤ b.halfOpenInFlight) :
    beforeInvoke b now = (b, .rejectedSaturated) := by
  unfold beforeInvoke
  simp [hst, hcap]

/-- The admission prefix after the cooldown, in the degenerate
`halfOpenMax = 0` configuration: transition to `half` with the counter
reset, then reject as saturated. -/
theorem beforeInvoke_open_elapsed_zero (b : Breaker) (now : Nat)
    (hst : b.state = .opened) (hnt : b.nextTry ≤ now)
    (hmax : b.cfg.halfOpenMax = 0) :
    beforeInvoke b now
      = ({ b with state := .half, halfOpenInFlight := 0 }, .rejectedSaturated) := by
  unfold beforeInvoke
  simp [hst, Nat.not_lt.mpr hnt, hmax]

/-- The admission prefix preserves the in-flight bound. -/
theorem beforeInvoke_bound (b : Breaker) (now : Nat)
    (h : b.halfOpenInFlight ≤ b.cfg.halfOpenMax) :
    (beforeInvoke b now).1.halfOpenInFlight
      ≤ (beforeInvoke b now).1.cfg.halfOpenMax := by
  cases hst : b.state with
  | closed => rw [beforeInvoke_closed b now hst]; exact h
  | half =>
    by_cases hcap : b.cfg.halfOpenMax ≤ b.halfOpenInFlight
    · rw [beforeInvoke_half_saturated b now hst hcap]; exact h
    · rw [beforeInvoke_half_inc b now hst (Nat.lt_of_not_le hcap)]
      have := Nat.lt_of_not_le hcap
      simp only []
      omega
  | opened =>
    by_cases hnow : now < b.nextTry
    · rw [beforeInvoke_open_cooling b now hst hnow]; exact h
    · by_cases hmax : 1 ≤ b.cfg.halfOpenMax
      · rw [beforeInvoke_open_elapsed b now hst (Nat.le_of_not_lt hnow) hmax]
        simpa using hmax
      · rw [beforeInvoke_open_elapsed_zero b now hst (Nat.le_of_not_lt hnow)
          (by omega)]
        simp

/-- Every interleaved step preserves the in-flight bound. -/
theorem cstep_bound (s : CState) (e : Ev)
    (h : s.b.halfOpenInFlight ≤ s.b.cfg.halfOpenMax) :
    (cstep s e).b.halfOpenInFlight ≤ (cstep s e).b.cfg.halfOpenMax := by
  cases e with
  | start now =>
    have hb := beforeInvoke_bound s.b now h
    unfold cstep
    dsimp only
    exact hb
  | settleOk now =>
    unfold cstep
    dsimp only
    split_ifs
    · exact h
    · simpa [settle_inflight, settle_cfg] using h
  | settleErr now =>
    unfold cstep
    dsimp only
    split_ifs
    · exact h
    · simpa [settle_inflight, settle_cfg] using h

/-- The in-flight bound holds along every interleaved trace from a fresh
breaker. -/
theorem runC_bound (cfg : BreakerCfg) (es : List Ev) :
    (runC cfg es).b.halfOpenInFlight ≤ (runC cfg es).b.cfg.halfOpenMax := by
  unfold runC
  generalize hs : ({ b := mkBreaker cfg, inflight := 0 } : CState) = s0
  have h0 : s0.b.halfOpenInFlight ≤ s0.b.cfg.halfOpenMax := by
    rw [← hs]; simp [mkBreaker]
  clear hs
  induction es generalizing s0 with
  | nil => simpa using h0
  | cons e rest ih =>
    simp only [List.foldl_cons]
    exact ih _ (cstep_bound s0 e h0)

end CircuitBreaker

open CircuitBreaker in
/-- C2: (a) starting from a fresh breaker, `failureThreshold` consecutive
failing calls (the wrapped operation failing each time) leave the breaker
`open`; (b) while `now < nextTry`, every call rejects with the open error
without invoking the wrapped operation and without changing the breaker;
(c) a single successful call at or after `nextTry` (with at least one
half-open probe allowed, as in every configuration reachable from the
defaults' `halfOpenMax = 2`) returns the breaker to `closed` with the
failure counter equal to `0`. -/
theorem breaker_threshold_open_recover :
    (∀ (cfg : BreakerCfg) (times : List (Nat × Nat)),
        1 ≤ cfg.failureThreshold → times.length = cfg.failureThreshold →
        (runFail (mkBreaker cfg) times).state = .opened) ∧
    (∀ (b : Breaker) (now tS : Nat) (ok : Bool),
        b.state = .opened → now < b.nextTry →
        breakerCall b now tS ok = (b, .errOpen, false)) ∧
    (∀ (b : Breaker) (now tS : Nat),
        b.state = .opened → b.nextTry ≤ now → 1 ≤ b.cfg.halfOpenMax →
        (breakerCall b now tS true).1.state = .closed ∧
        (breakerCall b now tS true).1.failures = 0 ∧
        (breakerCall b now tS true).2 = (.value, true)) := by
  refine ⟨?_, ?_, ?_⟩
  · intro cfg times h1 hlen
    apply runFail_closed_opens times (mkBreaker cfg) rfl
    · intro hnil
      rw [hnil] at hlen
      simp at hlen
      omega
    · simp [mkBreaker, hlen]
  · intro b now tS ok hst hnow
    unfold breakerCall
    rw [beforeInvoke_open_cooling b now hst hnow]
  · intro b now tS hst hnt hmax
    have hset : settle { b with state := BState.half, halfOpenInFlight := 1 } true tS
        = { b with
            state := .closed
            failures := 0
            halfOpenInFlight := 1 } := by
      unfold settle
      rw [if_pos rfl, onSuccess_eq, finallyStep_of_not_half _ (by simp)]
    unfold breakerCall
    rw [beforeInvoke_open_elapsed b now hst hnt hmax]
    dsimp only
    rw [hset]
    simp

open CircuitBreaker in
/-- Witness for C2 with `failureThreshold = 2`, `cooldownMs = 100`,
`halfOpenMax = 2`: two failing calls open the breaker; a call at `t = 50`
(before `nextTry = 101`) rejects untouched; a successful call at `t = 101`
closes it and resets the counter. -/
theorem breaker_threshold_open_recover_witness :
    (runFail (mkBreaker ⟨2, 100, 2⟩) [(0, 0), (1, 1)]).state = BState.opened ∧
    breakerCall
        { state := BState.opened
          failures := 2
          nextTry := 101
          halfOpenInFlight := 0
          cfg := ⟨2, 100, 2⟩ } 50 60 true
      = ({ state := BState.opened
           failures := 2
           nextTry := 101
           halfOpenInFlight := 0
           cfg := ⟨2, 100, 2⟩ }, .errOpen, false) ∧
    ((breakerCall
        { state := BState.opened
          failures := 2
          nextTry := 101
          halfOpenInFlight := 0
          cfg := ⟨2, 100, 2⟩ } 101 110 true).1.state = BState.closed ∧
      (breakerCall
        { state := BState.opened
          failures := 2
          nextTry := 101
          halfOpenInFlight := 0
          cfg := ⟨2, 100, 2⟩ } 101 110 true).1.failures = 0 ∧
      (breakerCall
        { state := BState.opened
          failures := 2
          nextTry := 101
          halfOpenInFlight := 0
          cfg := ⟨2, 100, 2⟩ } 101 110 true).2 = (.value, true)) :=
  ⟨breaker_threshold_open_recover.1 ⟨2, 100, 2⟩ [(0, 0), (1, 1)] (by decide) (by decide),
   breaker_threshold_open_recover.2.1 _ 50 60 true rfl (by decide),
   breaker_threshold_open_recover.2.2 _ 101 110 rfl (by decide) (by decide)⟩

open CircuitBreaker in
/-- C4 counterexample: the claim says the in-flight counter is decremented
after an admitted half-open probe settles, in every case.  Starting from a
half-open breaker with the counter at `0`, an admitted probe increments it
to `1`; by the claim the settlement (here: a success) should bring it back
to `0`.  It stays `1`: the `finally` clause decrements only if the state is
still `half`, and `onSuccess` has already closed the breaker. -/
theorem halfOpen_decrement_counterexample :
    ¬ ((breakerCall
        { state := BState.half
          failures := 0
          nextTry := 50
          halfOpenInFlight := 0
          cfg := defaults } 60 61 true).1.halfOpenInFlight = 0) := by
  decide

open CircuitBreaker in
/-- C4 (amended): the in-flight counter is incremented before the wrapped
operation is invoked for every half-open probe admitted below capacity;
settlement leaves the counter unchanged (the conditional decrement in the
`finally` clause never fires, because the handlers have already moved the
state out of `half`); the counter is instead reset to `0` on each
`open → half-open` transition, and consequently `halfOpenInFlight` never
exceeds the configured `halfOpenMax` along any interleaved trace. -/
theorem halfOpen_inflight_invariant :
    (∀ (b : Breaker) (now : Nat), b.state = .half →
        b.halfOpenInFlight < b.cfg.halfOpenMax →
        beforeInvoke b now
          = ({ b with halfOpenInFlight := b.halfOpenInFlight + 1 }, .admitted)) ∧
    (∀ (b : Breaker) (ok : Bool) (now : Nat),
        (settle b ok now).halfOpenInFlight = b.halfOpenInFlight) ∧
    (∀ (cfg : BreakerCfg) (es : List Ev),
        (runC cfg es).b.halfOpenInFlight ≤ (runC cfg es).b.cfg.halfOpenMax) :=
  ⟨beforeInvoke_half_inc, settle_inflight, runC_bound⟩

open CircuitBreaker in
/-- Witness for C4 at a concrete half-open breaker and a concrete
interleaved trace of two probes. -/
theorem halfOpen_inflight_invariant_witness :
    beforeInvoke
        { state := BState.half
          failures := 0
          nextTry := 50
          halfOpenInFlight := 0
          cfg := defaults } 60
      = ({ state := BState.half
           failures := 0
           nextTry := 50
           halfOpenInFlight := 1
           cfg := defaults }, .admitted) ∧
    (settle
        { state := BState.half
          failures := 0
          nextTry := 50
          halfOpenInFlight := 1
          cfg := defaults } true 61).halfOpenInFlight = 1 ∧
    (runC defaults [Ev.start 0, Ev.start 1, Ev.settleOk 2,
        Ev.settleErr 3]).b.halfOpenInFlight
      ≤ (runC defaults [Ev.start 0, Ev.start 1, Ev.settleOk 2,
        Ev.settleErr 3]).b.cfg.halfOpenMax :=
  ⟨halfOpen_inflight_invariant.1 _ 60 rfl (by decide),
   halfOpen_inflight_invariant.2.1 _ true 61,
   halfOpen_inflight_invariant.2.2 defaults _⟩

namespace Dedupe

/-- A call that finds a pending entry coalesces onto it: no new execution,
the shared promise is handed out, the state is otherwise unchanged. -/
theorem dedupeCall_pending (ttl : Nat) (s : DState) (now : Nat) (e : Entry)
    (he : s.entry = some e) (hp : e.state = .pending) :
    dedupeCall ttl s now = { s with returns := s.returns ++ [e.promise] } := by
  unfold dedupeCall
  rw [he]
  simp [hp]

/-- Folding any number of calls over a pending entry only hands the shared
promise out, once per caller. -/
theorem dedupeCall_pending_fold (ttl : Nat) (ts : List Nat) (s : DState)
    (e : Entry) (he : s.entry = some e) (hp : e.state = .pending) :
    ts.foldl (dedupeCall ttl) s
      = { s with returns := s.returns ++ List.replicate ts.length e.promise } := by
  induction ts generalizing s with
  | nil => simp
  | cons t rest ih =>
    simp only [List.foldl_cons]
    rw [dedupeCall_pending ttl s t e he hp]
    rw [ih { s with returns := s.returns ++ [e.promise] } he]
    simp [List.replicate_succ]

/-- A call that finds no entry starts a fresh execution. -/
theorem dedupeCall_none (ttl : Nat) (s : DState) (now : Nat)
    (he : s.entry = none) :
    dedupeCall ttl s now = dedupeFresh ttl s now := by
  unfold dedupeCall
  rw [he]

end Dedupe

open Dedupe in
/-- C5: a first `dedupe` call starts execution `0`; any number of further
calls while that execution is pending start nothing new and all receive the
same promise (hence the identical resolved value once execution `0`
settles); if the execution rejects, the entry is removed — never cached —
and the next call starts a fresh execution `1`. -/
theorem dedupe_single_execution (ttl t0 : Nat) (ts : List Nat) (tNext : Nat) :
    (ts.foldl (dedupeCall ttl) (dedupeCall ttl initD t0)).started = [0] ∧
    (ts.foldl (dedupeCall ttl) (dedupeCall ttl initD t0)).returns
      = List.replicate (ts.length + 1) 0 ∧
    (dedupeSettleErr (ts.foldl (dedupeCall ttl) (dedupeCall ttl initD t0))).entry
      = none ∧
    (dedupeCall ttl
      (dedupeSettleErr (ts.foldl (dedupeCall ttl) (dedupeCall ttl initD t0)))
      tNext).started = [0, 1] := by
  have h1 : dedupeCall ttl initD t0
      = { entry := some
            { promise := 0
              expireAt := t0 + ttl
              state := .pending
              startedAt := t0 }
          nextExec := 1
          started := [0]
          returns := [0] } := rfl
  rw [h1, dedupeCall_pending_fold ttl ts _ _ rfl rfl]
  refine ⟨rfl, ?_, rfl, ?_⟩
  · simp [List.replicate_succ]
  · rw [dedupeCall_none _ _ _ rfl]
    rfl

namespace PQueue

/-- The flush loop attempts the leading successful sends, then the first
failing send, and stops there: the failing event and everything after it
remain queued, in their original order. -/
theorem flushLoop_split (fails : QueuedEvent → Bool) :
    ∀ (good : List QueuedEvent) (bad : QueuedEvent) (rest : List QueuedEvent),
      (∀ ev ∈ good, fails ev = false) → fails bad = true →
      flushLoop fails (good ++ bad :: rest)
        = (good ++ [bad], good, bad :: rest) := by
  intro good
  induction good with
  | nil => intro bad rest _ hbad; simp [flushLoop, hbad]
  | cons ev g ih =>
    intro bad rest hgood hbad
    have hev : fails ev = false := hgood ev (by simp)
    simp only [List.cons_append, flushLoop, hev, Bool.false_eq_true, if_false,
      List.append_eq]
    rw [ih bad rest (fun e he => hgood e (by simp [he])) hbad]

end PQueue

open PQueue in
/-- C7: when a flush runs (online, senders wired) over a queue whose first
failing send is `bad`, the flush attempts each leading successful event once
and `bad` once, stops there (no retry of `bad` within the flush), sends
exactly the leading events, and persists the remaining unsent events —
`bad` first, then the rest in original order — back to storage. -/
theorem persistentQueue_flush_stops_at_failure (fails : QueuedEvent → Bool)
    (fits : List QueuedEvent → Bool) (good : List QueuedEvent)
    (bad : QueuedEvent) (rest : List QueuedEvent) (storage : Option Json)
    (hgood : ∀ ev ∈ good, fails ev = false) (hbad : fails bad = true)
    (hfits : fits (bad :: rest) = true) :
    tryFlush true true fails fits (good ++ bad :: rest) storage
        = (bad :: rest, some (encodeEvents (bad :: rest)), good) ∧
      (flushLoop fails (good ++ bad :: rest)).1 = good ++ [bad] := by
  have hsplit := flushLoop_split fails good bad rest hgood hbad
  refine ⟨?_, by rw [hsplit]⟩
  unfold tryFlush
  rw [if_neg (by simp), if_neg (by simp)]
  rw [hsplit]
  simp [writeLS, hfits]

open PQueue in
/-- Witness for C7: three queued actions, the second send throws. -/
theorem persistentQueue_flush_stops_at_failure_witness :
    tryFlush true true
        (fun ev => match ev with
          | .action n _ _ _ => n == "b"
          | _ => false)
        (fun _ => true)
        [QueuedEvent.action "a" none none 1, .action "b" none none 2,
          .action "c" none none 3] none
      = ([QueuedEvent.action "b" none none 2, .action "c" none none 3],
          some (encodeEvents [QueuedEvent.action "b" none none 2,
            .action "c" none none 3]),
          [QueuedEvent.action "a" none none 1]) ∧
    (flushLoop
        (fun ev => match ev with
          | .action n _ _ _ => n == "b"
          | _ => false)
        [QueuedEvent.action "a" none none 1, .action "b" none none 2,
          .action "c" none none 3]).1
      = [QueuedEvent.action "a" none none 1, .action "b" none none 2] :=
  persistentQueue_flush_stops_at_failure _ _
    [QueuedEvent.action "a" none none 1] (QueuedEvent.action "b" none none 2)
    [QueuedEvent.action "c" none none 3] none
    (by intro ev hev; simp at hev; rw [hev]; rfl) rfl rfl

namespace PQueue

/-- Below the byte cap, the byte-cap trim is the identity. -/
theorem shrink_le (cap : Nat) (q : List QueuedEvent)
    (h : (stringify (encodeEvents q)).length ≤ cap) :
    shrinkToByteCap cap q = q := by
  unfold shrinkToByteCap
  rw [if_pos (Or.inr h)]

/-- The byte-cap trim only drops oldest events: the result is a suffix. -/
theorem shrink_suffix (cap : Nat) (q : List QueuedEvent) :
    shrinkToByteCap cap q <:+ q := by
  by_cases h : q.length = 0 ∨ (stringify (encodeEvents q)).length ≤ cap
  · unfold shrinkToByteCap
    rw [if_pos h]
  · rw [shrinkToByteCap, if_neg h]
    exact (shrink_suffix cap _).trans (List.drop_suffix _ _)
termination_by q.length
decreasing_by
  simp only [List.length_drop]
  simp only [not_or, not_le] at h
  omega

/-- `push` only appends the new event and drops oldest ones. -/
theorem push_suffix (cfg : PCfg) (q : List QueuedEvent) (ev : QueuedEvent) :
    push cfg q ev <:+ q ++ [ev] := by
  unfold push
  dsimp only
  split_ifs with h
  · exact (shrink_suffix _ _).trans (List.drop_suffix _ _)
  · exact shrink_suffix _ _

/-- A storage write returns a suffix of the events it was given. -/
theorem writeLS_suffix (fits : List QueuedEvent → Bool)
    (events : List QueuedEvent) (st : Option Json) :
    (writeLS fits events st).2 <:+ events := by
  unfold writeLS
  dsimp only
  split_ifs <;> dsimp only <;>
    first
      | exact List.suffix_refl _
      | exact List.drop_suffix _ _

/-- The flush loop leaves a suffix of the queue unsent. -/
theorem flushLoop_suffix (fails : QueuedEvent → Bool) :
    ∀ q : List QueuedEvent, (flushLoop fails q).2.2 <:+ q := by
  intro q
  induction q with
  | nil => simp [flushLoop]
  | cons ev rest ih =>
    unfold flushLoop
    split_ifs with h
    · exact List.suffix_refl _
    · dsimp only
      exact ih.trans (List.suffix_cons ev rest)

/-- Appending on the right preserves the suffix relation. -/
theorem suffix_append_both {l₁ l₂ l : List QueuedEvent} (h : l₁ <:+ l₂) :
    l₁ ++ l <:+ l₂ ++ l := by
  obtain ⟨t, rfl⟩ := h
  exact ⟨t, by simp⟩

/-- Every step of the persistent-queue machine keeps the queue a suffix of
the accumulated pushed events. -/
theorem runP_suffix_aux (cfg : PCfg) (fits : List QueuedEvent → Bool) :
    ∀ (es : List PEvent) (s : PState) (acc : List QueuedEvent),
      s.q <:+ acc →
      (es.foldl (pstep cfg fits) s).q <:+ acc ++ pushedOf es := by
  intro es
  induction es with
  | nil => intro s acc h; simpa [pushedOf] using h
  | cons e rest ih =>
    intro s acc h
    simp only [List.foldl_cons, pushedOf, ← List.append_assoc]
    apply ih
    cases e with
    | action online wired n a sr now =>
      unfold pstep evOf
      dsimp only
      split_ifs with how
      · simpa using h
      · dsimp only
        exact (push_suffix cfg s.q _).trans (suffix_append_both h)
    | error online wired err c sr now =>
      unfold pstep evOf
      dsimp only
      split_ifs with how
      · simpa using h
      · dsimp only
        exact (push_suffix cfg s.q _).trans (suffix_append_both h)
    | write =>
      unfold pstep evOf
      dsimp only
      simpa using (writeLS_suffix fits s.q s.storage).trans h
    | flush online wired fails =>
      unfold pstep evOf tryFlush
      dsimp only
      split_ifs with h1 h2
      · simpa using h
      · simpa using h
      · simpa using ((writeLS_suffix fits _ s.storage).trans
          (flushLoop_suffix fails s.q)).trans h

/-- Every record the code serializes has the actual storage shape. -/
theorem encodeEvent_shape (ev : QueuedEvent) :
    actualShape (encodeEvent ev) = true := by
  cases ev with
  | action n a s ts => cases a <;> cases s <;> rfl
  | error e c s ts => cases c <;> cases s <;> rfl

end PQueue

open PQueue in
/-- C8 counterexample: the spec describes the stored records as
`(kind/name/attrs/sampleRate/enqueuedAt)` objects with `kind` equal to
`"action"` or `"error"`.  Enqueuing one action offline and letting the
debounced write fire stores a record that has no `kind`, `name` or
`enqueuedAt` field at all — the code writes the abbreviated keys
`t`/`n`/`ts` instead. -/
theorem storage_format_keys_counterexample :
    (runP pDefaults (fun _ => true)
        [PEvent.action false false "x" none none 5, PEvent.write]).storage
        = some (Json.arr [encodeEvent (QueuedEvent.action "x" none none 5)]) ∧
      specShape (encodeEvent (QueuedEvent.action "x" none none 5)) = false := by
  constructor
  · have hpush : push pDefaults [] (QueuedEvent.action "x" none none 5)
        = [QueuedEvent.action "x" none none 5] := by
      unfold push
      dsimp only
      rw [if_neg (by decide)]
      exact shrink_le _ _ (by decide)
    have h1 : pstep pDefaults (fun _ => true) { q := [], storage := none }
        (PEvent.action false false "x" none none 5)
        = { q := [QueuedEvent.action "x" none none 5], storage := none } := by
      unfold pstep
      dsimp only
      rw [if_neg (by decide), hpush]
    have h2 : pstep pDefaults (fun _ => true)
        { q := [QueuedEvent.action "x" none none 5], storage := none }
        PEvent.write
        = { q := [QueuedEvent.action "x" none none 5]
            storage := some (Json.arr
              [encodeEvent (QueuedEvent.action "x" none none 5)]) } := rfl
    unfold runP
    simp only [List.foldl_cons, List.foldl_nil]
    rw [h1, h2]
  · rfl

open PQueue in
/-- C8 (amended): along every trace of the persistent-queue machine the
in-memory queue is an ordered suffix of the events pushed so far (oldest
dropped first); once the debounced write fires, the storage entry is
exactly the JSON array of the queued records in order; every such record
is a `t`-discriminated object (`t = "a"` with `n`, or `t = "e"` with `e`,
optional `a`/`c` and `s`, and `ts` the enqueue timestamp); and a serialized
error is the JSON text of `\x7b n, m, s \x7d` holding the error's `name`,
`message` and `stack`. -/
theorem storage_format_actual (cfg : PCfg) (es : List PEvent) :
    (runP cfg (fun _ => true) es).q <:+ pushedOf es ∧
    (runP cfg (fun _ => true) (es ++ [PEvent.write])).storage
      = some (encodeEvents (runP cfg (fun _ => true) es).q) ∧
    (∀ ev : QueuedEvent, actualShape (encodeEvent ev) = true) ∧
    (∀ e : ErrorVal,
      serializeError e
        = stringify (Json.obj [("n", .str e.name), ("m", .str e.message),
            ("s", .str e.stack)])) := by
  refine ⟨?_, ?_, encodeEvent_shape, fun _ => rfl⟩
  · simpa using runP_suffix_aux cfg (fun _ => true) es
      { q := [], storage := none } [] (by simp)
  · unfold runP
    rw [List.foldl_append]
    simp only [List.foldl_cons, List.foldl_nil]
    rfl

namespace RateGuard

/-- On a nondecreasing list, shifting off the stale front prefix is the same
as filtering by the window start. -/
theorem dropWhile_lt_eq_filter (w : Nat) :
    ∀ (l : List Nat), l.Sorted (· ≤ ·) →
      l.dropWhile (fun x => decide (x < w))
        = l.filter (fun x => decide (w ≤ x)) := by
  intro l
  induction l with
  | nil => intro _; rfl
  | cons a l ih =>
    intro hsort
    rw [List.sorted_cons] at hsort
    by_cases h : a < w
    · rw [List.dropWhile_cons_of_pos (by simpa using h),
        List.filter_cons_of_neg (by simpa using Nat.not_le.mpr h)]
      exact ih hsort.2
    · rw [List.dropWhile_cons_of_neg (by simpa using h),
        List.filter_cons_of_pos (by simpa using Nat.le_of_not_lt h)]
      rw [List.filter_eq_self.mpr]
      intro b hb
      have h1 := hsort.1 b hb
      have h2 := Nat.le_of_not_lt h
      simpa using le_trans h2 h1

/-- A new timestamp admitted at `t` extends the admission property. -/
theorem admissible_append (W N : Nat) (J : List Nat) (t : Nat)
    (hadm : Admissible W N J)
    (hnew : ((J ++ [t]).filter (fun x => decide (t - W ≤ x))).length ≤ N) :
    Admissible W N (J ++ [t]) := by
  intro pre x post hdec
  rcases List.eq_nil_or_concat post with rfl | ⟨post', y, rfl⟩
  · obtain ⟨h1, h2⟩ := List.append_inj' hdec rfl
    obtain rfl : t = x := by simpa using h2
    rw [← h1]
    exact hnew
  · have h2 : J ++ [t] = (pre ++ x :: post') ++ [y] := by
      rw [List.concat_eq_append] at hdec
      simpa [List.append_assoc] using hdec
    obtain ⟨h3, _⟩ := List.append_inj' h2 rfl
    exact hadm pre x post' h3

/-- From the admission property on a nondecreasing list, every sliding
window of length `W` holds at most `N` timestamps. -/
theorem window_bound_of_admissible (W N : Nat) :
    ∀ (l : List Nat), l.Sorted (· ≤ ·) → Admissible W N l →
      ∀ s, countWindow s W l ≤ N := by
  intro l
  induction l using List.reverseRecOn with
  | nil => intro _ _ s; simp [countWindow]
  | append_singleton l a ih =>
    intro hsort hadm s
    have hsl : l.Sorted (· ≤ ·) :=
      hsort.sublist (List.sublist_append_left l [a])
    by_cases hin : s ≤ a ∧ a ≤ s + W
    · have h1 := hadm l a [] rfl
      have h2 : countWindow s W (l ++ [a])
          ≤ ((l ++ [a]).filter (fun x => decide (a - W ≤ x))).length := by
        apply List.Sublist.length_le
        apply List.monotone_filter_right
        intro x hx
        simp only [decide_eq_true_eq] at hx ⊢
        omega
      exact h2.trans h1
    · have h2 : countWindow s W (l ++ [a]) = countWindow s W l := by
        simp [countWindow, List.filter_append, hin]
      rw [h2]
      refine ih hsl ?_ s
      intro pre x post hdec
      exact hadm pre x (post ++ [a]) (by rw [hdec]; simp)

end RateGuard

namespace RateGuard

/-- The debounced report bookkeeping never touches the hit window. -/
theorem maybeReport_hits (cfg : Cfg) (now : Nat) (b : Bucket) :
    (maybeReport cfg now b).hits = b.hits := by
  unfold maybeReport
  split_ifs <;> rfl

/-- `beforeRequest` under the `block` strategy while the bucket is blocked:
prune, report, throw. -/
theorem beforeRequest_block_blocked (cfg : Cfg) (b : Bucket) (now : Nat)
    (hstrat : cfg.overflowStrategy = .block) (hblk : now < b.blockedUntil) :
    (beforeRequest cfg true b now).1.hits = (prune cfg now b).hits ∧
      (beforeRequest cfg true b now).2 = .thrown := by
  unfold beforeRequest
  simp only [Bool.not_true, Bool.false_eq_true, if_false]
  rw [if_pos (show now < (prune cfg now b).blockedUntil from hblk), hstrat]
  exact ⟨maybeReport_hits cfg now _, rfl⟩

/-- `beforeRequest` under the `block` strategy when the tentative timestamp
pushes the window over the limit: the tentative hit is rolled back and the
call throws. -/
theorem beforeRequest_block_over (cfg : Cfg) (b : Bucket) (now : Nat)
    (hstrat : cfg.overflowStrategy = .block) (hblk : ¬ now < b.blockedUntil)
    (hover : cfg.maxRequests <
      (((prune cfg now b).hits ++ [now]).dropWhile
        (fun x => decide (x < now - cfg.windowMs))).length) :
    (beforeRequest cfg true b now).1.hits
        = (((prune cfg now b).hits ++ [now]).dropWhile
            (fun x => decide (x < now - cfg.windowMs))).dropLast ∧
      (beforeRequest cfg true b now).2 = .thrown := by
  unfold beforeRequest
  simp only [Bool.not_true, Bool.false_eq_true, if_false]
  rw [if_neg (show ¬ now < (prune cfg now b).blockedUntil from hblk)]
  rw [if_pos (show cfg.maxRequests <
    (prune cfg now
      { prune cfg now b with hits := (prune cfg now b).hits ++ [now] }).hits.length
    from hover)]
  rw [hstrat]
  refine ⟨?_, rfl⟩
  show (maybeReport cfg now _).hits.dropLast = _
  rw [maybeReport_hits]
  rfl

/-- `beforeRequest` under the `block` strategy when the call is admitted:
the timestamp is recorded and the promise resolves. -/
theorem beforeRequest_block_under (cfg : Cfg) (b : Bucket) (now : Nat)
    (hblk : ¬ now < b.blockedUntil)
    (hunder : ¬ cfg.maxRequests <
      (((prune cfg now b).hits ++ [now]).dropWhile
        (fun x => decide (x < now - cfg.windowMs))).length) :
    (beforeRequest cfg true b now).1.hits
        = ((prune cfg now b).hits ++ [now]).dropWhile
            (fun x => decide (x < now - cfg.windowMs)) ∧
      (beforeRequest cfg true b now).2 = .resolved := by
  unfold beforeRequest
  simp only [Bool.not_true, Bool.false_eq_true, if_false]
  rw [if_neg (show ¬ now < (prune cfg now b).blockedUntil from hblk)]
  rw [if_neg (show ¬ cfg.maxRequests <
    (prune cfg now
      { prune cfg now b with hits := (prune cfg now b).hits ++ [now] }).hits.length
    from hunder)]
  exact ⟨rfl, rfl⟩

end RateGuard

namespace RateGuard

/-- One `block`-strategy call with failures counted preserves the guard
invariant, moving its clock to the call's timestamp. -/
theorem guardInv_step (cfg : Cfg) (hstrat : cfg.overflowStrategy = .block)
    (hcount : cfg.countOnFailure = true) (s : GState) (lastNow : Nat) (c : Call)
    (hEn : c.guardEnabled = true) (hAl : c.allowed = true)
    (hnow : lastNow ≤ c.now) (hInv : GuardInv cfg s lastNow) :
    GuardInv cfg (traceStep cfg s c) c.now := by
  obtain ⟨hs, hb, hh, hadm⟩ := hInv
  have hWle : lastNow - cfg.windowMs ≤ c.now - cfg.windowMs :=
    Nat.sub_le_sub_right hnow _
  have hPsub : ∀ x ∈ s.invoked.filter
      (fun x => decide (c.now - cfg.windowMs ≤ x)), x ∈ s.invoked :=
    fun x hx => (List.mem_filter.mp hx).1
  have hprune1 : (prune cfg c.now s.bucket).hits
      = s.invoked.filter (fun x => decide (c.now - cfg.windowMs ≤ x)) := by
    show s.bucket.hits.dropWhile _ = _
    rw [hh, dropWhile_lt_eq_filter _ _ (hs.filter _), List.filter_filter]
    apply List.filter_congr
    intro x _
    by_cases h2 : c.now - cfg.windowMs ≤ x
    · have h3 : lastNow - cfg.windowMs ≤ x := le_trans hWle h2
      simp [h2, h3]
    · simp [h2]
  have hsortP : (s.invoked.filter
      (fun x => decide (c.now - cfg.windowMs ≤ x))).Sorted (· ≤ ·) :=
    hs.filter _
  have hmemP : ∀ x ∈ s.invoked.filter
      (fun x => decide (c.now - cfg.windowMs ≤ x)), x ≤ c.now :=
    fun x hx => le_trans (hb x (hPsub x hx)) hnow
  have hsort2 : ((s.invoked.filter (fun x => decide (c.now - cfg.windowMs ≤ x)))
      ++ [c.now]).Sorted (· ≤ ·) := by
    apply List.pairwise_append.mpr
    refine ⟨hsortP, by simp, ?_⟩
    intro x hx y hy
    simp only [List.mem_singleton] at hy
    exact hy ▸ hmemP x hx
  have hpush : (((prune cfg c.now s.bucket).hits ++ [c.now]).dropWhile
        (fun x => decide (x < c.now - cfg.windowMs)))
      = s.invoked.filter (fun x => decide (c.now - cfg.windowMs ≤ x))
          ++ [c.now] := by
    rw [hprune1, dropWhile_lt_eq_filter _ _ hsort2, List.filter_append]
    congr 1
    · rw [List.filter_eq_self.mpr]
      intro x hx
      exact (List.mem_filter.mp hx).2
    · simp [Nat.sub_le]
  have hfilt2 : ((s.invoked ++ [c.now]).filter
        (fun x => decide (c.now - cfg.windowMs ≤ x)))
      = s.invoked.filter (fun x => decide (c.now - cfg.windowMs ≤ x))
          ++ [c.now] := by
    rw [List.filter_append]
    congr 1
    simp [Nat.sub_le]
  by_cases hblk : c.now < s.bucket.blockedUntil
  · -- blocked: throw, nothing reaches the operation
    obtain ⟨hh1, hh2⟩ := beforeRequest_block_blocked cfg s.bucket c.now hstrat hblk
    rcases hbr : beforeRequest cfg true s.bucket c.now with ⟨b', o⟩
    rw [hbr] at hh1 hh2
    dsimp only at hh1 hh2
    subst hh2
    have hts : traceStep cfg s c
        = { bucket := b', invoked := s.invoked
            results := s.results ++ [.blockedErr] } := by
      unfold traceStep guardCall
      rw [hAl, hEn, hbr]
      simp
    rw [hts]
    exact ⟨hs, fun x hx => le_trans (hb x hx) hnow,
      by dsimp only; rw [hh1, hprune1], hadm⟩
  · by_cases hover : cfg.maxRequests <
        (((prune cfg c.now s.bucket).hits ++ [c.now]).dropWhile
          (fun x => decide (x < c.now - cfg.windowMs))).length
    · -- over the limit: tentative hit rolled back, throw
      obtain ⟨hh1, hh2⟩ :=
        beforeRequest_block_over cfg s.bucket c.now hstrat hblk hover
      rcases hbr : beforeRequest cfg true s.bucket c.now with ⟨b', o⟩
      rw [hbr] at hh1 hh2
      dsimp only at hh1 hh2
      subst hh2
      have hts : traceStep cfg s c
          = { bucket := b', invoked := s.invoked
              results := s.results ++ [.blockedErr] } := by
        unfold traceStep guardCall
        rw [hAl, hEn, hbr]
        simp
      rw [hts]
      refine ⟨hs, fun x hx => le_trans (hb x hx) hnow, ?_, hadm⟩
      dsimp only
      rw [hh1, hpush, List.dropLast_concat]
    · -- admitted: the operation is invoked and the timestamp is kept
      obtain ⟨hh1, hh2⟩ :=
        beforeRequest_block_under cfg s.bucket c.now hblk hover
      rcases hbr : beforeRequest cfg true s.bucket c.now with ⟨b', o⟩
      rw [hbr] at hh1 hh2
      dsimp only at hh1 hh2
      subst hh2
      have hts : traceStep cfg s c
          = { bucket := b', invoked := s.invoked ++ [c.now]
              results := s.results
                ++ [if c.opOk then GuardRes.value else .opError] } := by
        unfold traceStep guardCall
        rw [hAl, hEn, hbr, hcount]
        cases hop : c.opOk <;> simp [afterRequest, hop]
      rw [hts]
      refine ⟨?_, ?_, ?_, ?_⟩
      · apply List.pairwise_append.mpr
        refine ⟨hs, by simp, ?_⟩
        intro x hx y hy
        simp only [List.mem_singleton] at hy
        exact hy ▸ le_trans (hb x hx) hnow
      · intro x hx
        rcases List.mem_append.mp hx with h | h
        · exact le_trans (hb x h) hnow
        · simp only [List.mem_singleton] at h
          exact h ▸ le_refl _
      · dsimp only
        rw [hh1, hpush, hfilt2]
      · apply admissible_append _ _ _ _ hadm
        rw [hfilt2, ← hpush]
        exact Nat.le_of_not_lt hover

end RateGuard

namespace RateGuard

/-- The guard invariant carries over whole traces. -/
theorem guardInv_run (cfg : Cfg) (hstrat : cfg.overflowStrategy = .block)
    (hcount : cfg.countOnFailure = true) :
    ∀ (calls : List Call) (s : GState) (lastNow : Nat),
      GuardInv cfg s lastNow →
      (calls.map Call.now).Sorted (· ≤ ·) →
      (∀ c ∈ calls, c.guardEnabled = true ∧ c.allowed = true) →
      (∀ c ∈ calls, lastNow ≤ c.now) →
      ∃ m, GuardInv cfg (calls.foldl (traceStep cfg) s) m := by
  intro calls
  induction calls with
  | nil => intro s lastNow hInv _ _ _; exact ⟨lastNow, hInv⟩
  | cons c rest ih =>
    intro s lastNow hInv hsortT hflags hge
    simp only [List.foldl_cons]
    have hstep := guardInv_step cfg hstrat hcount s lastNow c
      (hflags c (by simp)).1 (hflags c (by simp)).2 (hge c (by simp)) hInv
    rw [List.map_cons, List.sorted_cons] at hsortT
    apply ih _ c.now hstep hsortT.2
    · intro c' hc'
      exact hflags c' (by simp [hc'])
    · intro c' hc'
      exact hsortT.1 c'.now (List.mem_map_of_mem _ hc')

end RateGuard

open RateGuard in
/-- C1 (amended): for every `block`-strategy guard with failures counted
(`countOnFailure = true`, the default) and every sequence of guarded calls
with nondecreasing timestamps, made with the kill switch enabled and the
key admitted by the key filter, at most `maxRequests` calls whose
timestamps fall within any sliding window of length `windowMs` ever reach
the wrapped operation. -/
theorem rateGuard_sliding_window_bound (cfg : Cfg) (calls : List Call)
    (hstrat : cfg.overflowStrategy = .block)
    (hcount : cfg.countOnFailure = true)
    (hmono : (calls.map Call.now).Sorted (· ≤ ·))
    (hflags : ∀ c ∈ calls, c.guardEnabled = true ∧ c.allowed = true) :
    slidingWindowOK cfg calls := by
  intro w
  have h0 : GuardInv cfg initG 0 := by
    refine ⟨by simp [initG], by simp [initG], rfl, ?_⟩
    intro pre t post h
    simp [initG] at h
  obtain ⟨m, hInv⟩ := guardInv_run cfg hstrat hcount calls initG 0 h0 hmono
    hflags (fun c _ => Nat.zero_le _)
  exact window_bound_of_admissible cfg.windowMs cfg.maxRequests _
    hInv.sorted hInv.adm w

open RateGuard in
/-- Witness for C1 (amended) on a concrete `block`-strategy guard
(`maxRequests = 1`, `windowMs = 100`, failures counted) and the two-call
trace of the counterexample, at window start `0`. -/
theorem rateGuard_sliding_window_bound_witness :
    countWindow 0 100
        (runTrace
          { windowMs := 100, maxRequests := 1, blockDurationMs := 100
            reportDebounceMs := 5000, countOnFailure := true
            overflowStrategy := .block }
          cexCalls).invoked
      ≤ 1 :=
  rateGuard_sliding_window_bound
    { windowMs := 100, maxRequests := 1, blockDurationMs := 100
      reportDebounceMs := 5000, countOnFailure := true
      overflowStrategy := .block }
    cexCalls rfl rfl (by decide) (by decide) 0
